import Mathlib

/-!
# sessionizer: a shallow embedding of `main.go`

The program scans two directories under the home directory, shows their
subdirectories in a filterable list, and attaches the terminal to a tmux
session named after the chosen directory.

Modelling conventions.

* A Go `string` is a Lean `String`; the functions of the Go standard library that
  the program calls (`strings.ReplaceAll`, `strings.Join`, `filepath.Base`,
  `filepath.Clean`, `filepath.Join`) are transcribed on `List Char` from their Unix
  implementations (separator `/`, no volume names) and wrapped on `String`.
  The characters the program inspects (`/`, `.`, `:`) are ASCII, so on valid UTF-8
  the byte-wise Go functions and the character-wise model agree.
* The outside world is explicit: the environment is a lookup function, the
  filesystem is a `ReadDir` function, the home directory is an `Option`, and every
  `exec.Command(...).Run()` is answered by a `Runner` that sees the history of the
  earlier invocations together with their results.
* `log.Fatal` and `os.Exit` end the process; they are modelled by the `Outcome` /
  `Except` result of the function that calls them.
* The list widget of the `bubbles` library is a parameter (`ListWidget`).
-/

namespace Sessionizer

/-! ## Go standard library: `strings` -/

/-- Left-to-right scan of `strings.Replace` with `n = -1` for a non-empty `old`:
at a position where `old` matches, `new` is written and the scan resumes after the
match (`skip` counts the characters of the match that are still to be passed over);
elsewhere the character is copied. -/
def replaceFrom (old new : List Char) : Nat → List Char → List Char
  | _, [] => []
  | skip + 1, _ :: rest => replaceFrom old new skip rest
  | 0, c :: rest =>
    if old.isPrefixOf (c :: rest) then new ++ replaceFrom old new (old.length - 1) rest
    else c :: replaceFrom old new 0 rest

/-- Character-level `strings.ReplaceAll(s, old, new)`: `s` itself when `old == new`;
for an empty `old`, `new` before the first character and after every character; otherwise
every non-overlapping occurrence of `old`, found left to right, replaced by `new`. -/
def replaceAllChars (s old new : List Char) : List Char :=
  if old = new then s
  else if old = [] then new ++ s.flatMap (fun c => c :: new)
  else replaceFrom old new 0 s

/-- Go `strings.ReplaceAll`. -/
def ReplaceAll (s old new : String) : String :=
  ⟨replaceAllChars s.data old.data new.data⟩

/-- Character-level `strings.Join(elems, sep)`. -/
def joinChars (sep : List Char) : List (List Char) → List Char
  | [] => []
  | [e] => e
  | e :: es => e ++ sep ++ joinChars sep es

/-! ## Go standard library: `path/filepath` (Unix) -/

/-- Go `os.IsPathSeparator` on Unix. -/
def IsPathSeparator (c : Char) : Bool := c == '/'

/-- First loop of `filepath.Base`: strip the trailing separators. -/
def stripTrailingSeparators (path : List Char) : List Char :=
  (path.reverse.dropWhile IsPathSeparator).reverse

/-- Second loop of `filepath.Base`: what follows the last separator (the whole
path when it has none). -/
def lastElement (path : List Char) : List Char :=
  (path.reverse.takeWhile (fun c => !IsPathSeparator c)).reverse

/-- Character-level `filepath.Base`. -/
def baseChars (path : List Char) : List Char :=
  if path = [] then ['.']
  else
    let path := lastElement (stripTrailingSeparators path)
    if path = [] then ['/'] else path

/-- Go `filepath.Base`. -/
def Base (path : String) : String := ⟨baseChars path.data⟩

/-- The backtracking of `filepath.Clean` at a `..` element, on the write index:
`for out.w > dotdot && !os.IsPathSeparator(out.index(out.w)) { out.w-- }`. -/
def backtrackIndex (out : List Char) (dotdot : Nat) : Nat → Nat
  | 0 => 0
  | w + 1 =>
    if w + 1 > dotdot ∧ !IsPathSeparator (out.getD (w + 1) '/') then backtrackIndex out dotdot w
    else w + 1

/-- State of the buffer of `filepath.Clean`: the characters written so far
(`out.w` is their number) and the index `dotdot` below which `..` must not
backtrack. -/
structure CleanState where
  out : List Char
  dotdot : Nat
deriving DecidableEq, Repr

/-- Effect of a `..` element in `filepath.Clean` on the buffer. -/
def cleanDotDot (rooted : Bool) (st : CleanState) : CleanState :=
  if st.out.length > st.dotdot then
    { st with out := st.out.take (backtrackIndex st.out st.dotdot (st.out.length - 1)) }
  else if !rooted then
    let out := (if st.out.length > 0 then st.out ++ ['/'] else st.out) ++ ['.', '.']
    { out := out, dotdot := out.length }
  else st

/-- The main loop of `filepath.Clean` over the unread part of the path; each
iteration reads at least one character, so `fuel` at least the length of the unread
part is never exhausted. -/
def cleanLoop (rooted : Bool) : Nat → List Char → CleanState → CleanState
  | 0, _, st => st
  | _ + 1, [], st => st
  | fuel + 1, c :: rest, st =>
    if IsPathSeparator c then
      -- empty path element
      cleanLoop rooted fuel rest st
    else if c = '.' ∧ (rest = [] ∨ rest.head? = some '/') then
      -- . element
      cleanLoop rooted fuel rest st
    else if c = '.' ∧ rest.head? = some '.' ∧ (rest.tail = [] ∨ rest.tail.head? = some '/') then
      -- .. element
      cleanLoop rooted fuel rest.tail (cleanDotDot rooted st)
    else
      -- real path element: add slash if needed, copy element
      let out :=
        if (rooted && st.out.length != 1) || (!rooted && st.out.length != 0) then st.out ++ ['/']
        else st.out
      cleanLoop rooted fuel ((c :: rest).dropWhile (fun x => !IsPathSeparator x))
        { st with out := out ++ (c :: rest).takeWhile (fun x => !IsPathSeparator x) }

/-- Character-level `filepath.Clean` on Unix. -/
def cleanChars (path : List Char) : List Char :=
  match path with
  | [] => ['.']
  | c :: rest =>
    let rooted := IsPathSeparator c
    let st :=
      if rooted then cleanLoop rooted rest.length rest { out := ['/'], dotdot := 1 }
      else cleanLoop rooted (c :: rest).length (c :: rest) { out := [], dotdot := 0 }
    if st.out.length = 0 then ['.'] else st.out

/-- Go `filepath.Clean`. -/
def Clean (path : String) : String := ⟨cleanChars path.data⟩

/-- Character-level `filepath.Join` on Unix: the leading empty elements are
skipped, the others are joined by the separator and cleaned; `""` when all are
empty. -/
def joinPathChars : List (List Char) → List Char
  | [] => []
  | e :: es => if e ≠ [] then cleanChars (joinChars ['/'] (e :: es)) else joinPathChars es

/-- Go `filepath.Join`. -/
def Join (elem : List String) : String := ⟨joinPathChars (elem.map String.data)⟩

/-! ## `AttachOrCreateSession`: the session name -/

/-- Lines 154-156 of `main.go`: the name of the tmux session for `path`. -/
def sessionName (path : String) : String :=
  let sessionName := Base path
  let sessionName := ReplaceAll sessionName "." "_"
  let sessionName := ReplaceAll sessionName ":" "_"
  sessionName

/-- The character map that the claims attribute to the sanitisation: `.` and `:`
become `_`, every other character is kept. -/
def sanitizeChar (c : Char) : Char := if c = '.' ∨ c = ':' then '_' else c

/-! ## `AttachOrCreateSession`: the process boundary -/

/-- An `exec.Command(name, args...)`. -/
structure Command where
  name : String
  args : List String
deriving DecidableEq, Repr

/-- The commands run so far, each with whether its `Run()` returned an error. -/
abbrev History := List (Command × Bool)

/-- The answer of the outside world to `cmd.Run()`, which may depend on everything
run before and on how it ended: `true` when `Run()` returns a non-nil error. -/
abbrev Runner := History → Command → Bool

/-- The environment of the process, as `os.LookupEnv` sees it. -/
abbrev Environ := String → Option String

/-- Go `os.Getenv`: the value of the variable, `""` when it is not set. -/
def Getenv (env : Environ) (key : String) : String := (env key).getD ""

/-- How a call ends: it returns to its caller, or `log.Fatal` ends the process. -/
inductive Outcome where
  | returned
  | fatal
deriving DecidableEq, Repr

/-- The `tmux new-session` command of line 162. -/
def newSessionCommand (sessionName path : String) : Command :=
  ⟨"tmux", ["new-session", "-d", "-s", sessionName, "-c", path]⟩

/-- The `tmux switch-client` command of line 168. -/
def switchClientCommand (sessionName : String) : Command :=
  ⟨"tmux", ["switch-client", "-t", sessionName]⟩

/-- The `tmux attach-session` command of line 170. -/
def attachSessionCommand (sessionName : String) : Command :=
  ⟨"tmux", ["attach-session", "-t", sessionName]⟩

/-- Lines 166-171: the command of the second step. -/
def attachCommand (env : Environ) (sessionName : String) : Command :=
  if Getenv env "TMUX" ≠ "" then switchClientCommand sessionName
  else attachSessionCommand sessionName

/-- Lines 153-180 of `main.go`. The error of the first `Run()` is dropped; the error
of the second one is fatal. Returns the extended history and the outcome. -/
def AttachOrCreateSession (run : Runner) (env : Environ) (path : String) (h : History) :
    History × Outcome :=
  let name := sessionName path
  let create := newSessionCommand name path
  let h := h ++ [(create, run h create)]
  let cmd := attachCommand env name
  let err := run h cmd
  let h := h ++ [(cmd, err)]
  if err then (h, Outcome.fatal) else (h, Outcome.returned)

/-! ## The selector model -/

/-- The `item` struct of `main.go` (the only implementation of `list.Item`). -/
structure item where
  title : String
  desc : String
  path : String
deriving DecidableEq, Repr

/-- The `model` struct of `main.go`, over the state type `L` of the list widget. -/
structure model (L : Type) where
  list : L
  choice : String

/-- A `tea.Msg`: a key press, given by the value of its `String()` method, a window
size change, or any other message. -/
inductive Msg where
  | KeyMsg (str : String)
  | WindowSizeMsg (Width Height : Int)
  | other (tag : Nat)
deriving DecidableEq, Repr

/-- A `tea.Cmd`: `nil`, `tea.Quit`, or any other command. -/
inductive Cmd where
  | nil
  | Quit
  | other (tag : Nat)
deriving DecidableEq, Repr

/-- The operations of `list.Model` that `model.Update` calls. -/
structure ListWidget (L : Type) where
  SelectedItem : L → Option item
  SetSize : L → Int → Int → L
  Update : L → Msg → L × Cmd

/-- The value of `docStyle.GetFrameSize()` for `docStyle = NewStyle().Margin(1, 2)`:
horizontal and vertical frame size. -/
def GetFrameSize : Int × Int := (4, 2)

/-- Lines 35-56 of `main.go`. -/
def Update {L : Type} (W : ListWidget L) (m : model L) (msg : Msg) : model L × Cmd :=
  match msg with
  | Msg.KeyMsg str =>
    if str = "ctrl+c" then (m, Cmd.Quit)
    else if str = "enter" then
      match W.SelectedItem m.list with
      | some i => ({ m with choice := i.path }, Cmd.Quit)
      | none => (m, Cmd.nil)
    else
      let r := W.Update m.list msg
      ({ m with list := r.1 }, r.2)
  | Msg.WindowSizeMsg Width Height =>
    let l := W.SetSize m.list (Width - GetFrameSize.1) (Height - GetFrameSize.2)
    let r := W.Update l msg
    ({ m with list := r.1 }, r.2)
  | Msg.other _ =>
    let r := W.Update m.list msg
    ({ m with list := r.1 }, r.2)

/-- Line 135: the model the program starts from. -/
def initialModel {L : Type} (l : L) : model L := { list := l, choice := "" }

/-- A confirmation key press while an item is highlighted. -/
def isConfirmation {L : Type} (W : ListWidget L) (m : model L) (msg : Msg) : Bool :=
  msg == Msg.KeyMsg "enter" && (W.SelectedItem m.list).isSome

/-- The model after a sequence of messages. -/
def runMessages {L : Type} (W : ListWidget L) (m : model L) : List Msg → model L
  | [] => m
  | msg :: rest => runMessages W (Update W m msg).1 rest

/-- No message of the sequence is a confirmation key press arriving while an item
is highlighted. -/
def noConfirmation {L : Type} (W : ListWidget L) (m : model L) : List Msg → Bool
  | [] => true
  | msg :: rest => !isConfirmation W m msg && noConfirmation W (Update W m msg).1 rest

/-- The result of the selector as lines 144-149 read it off the final model:
the chosen path, or none when `choice` is empty. -/
def selectionResult {L : Type} (m : model L) : Option String :=
  if m.choice ≠ "" then some m.choice else none

/-! ## The end of `main` -/

/-- What the process did after the selector returned: the paths the launcher was
called with, the commands run, and the exit status. -/
structure ProcessResult where
  launcherCalls : List String
  history : History
  exitCode : Nat
deriving DecidableEq, Repr

/-- Lines 144-150 of `main.go`, for a final model of type `model`; a fatal outcome
of the launcher is `log.Fatal`, which exits with status 1, and returning from `main`
exits with status 0. -/
def mainAfterSelector {L : Type} (run : Runner) (env : Environ) (m : model L) (h : History) :
    ProcessResult :=
  if m.choice ≠ "" then
    let r := AttachOrCreateSession run env m.choice h
    match r.2 with
    | Outcome.returned => { launcherCalls := [m.choice], history := r.1, exitCode := 0 }
    | Outcome.fatal => { launcherCalls := [m.choice], history := r.1, exitCode := 1 }
  else
    { launcherCalls := [], history := h, exitCode := 10 }

/-! ## The directory collector and the items -/

/-- An `os.DirEntry`, as far as the program reads it. -/
structure DirEntry where
  Name : String
  IsDir : Bool
deriving DecidableEq, Repr

/-- The reasons for which the collector and the item construction call `log.Fatal`. -/
inductive Fatal where
  | userHomeDir
  | readDir (path : String)
deriving DecidableEq, Repr

/-- The filesystem as `os.ReadDir` sees it: the entries of a directory, or none
when reading fails. -/
abbrev FileSystem := String → Option (List DirEntry)

/-- A Go `map[string][]os.DirEntry`: the keys are pairwise distinct. -/
abbrev DirMap := List (String × List DirEntry)

/-- The expression `m[key]`: the nil slice when `key` is absent. -/
def DirMap.get (m : DirMap) (key : String) : List DirEntry :=
  (m.lookup key).getD []

/-- The assignment `m[key] = value`. -/
def DirMap.set (m : DirMap) (key : String) (value : List DirEntry) : DirMap :=
  if (m.lookup key).isSome then m.map (fun p => if p.1 = key then (key, value) else p)
  else m ++ [(key, value)]

/-- The loop of lines 189-197. -/
def getDirectoriesLoop (fs : FileSystem) (home : String) :
    List String → DirMap → Except Fatal DirMap
  | [], allDirectories => Except.ok allDirectories
  | entry :: rest, allDirectories =>
    let fullPath := Join [home, entry]
    match fs fullPath with
    | none => Except.error (Fatal.readDir fullPath)
    | some directories =>
      getDirectoriesLoop fs home rest
        (allDirectories.set entry (allDirectories.get entry ++ directories))

/-- Lines 182-200 of `main.go`; `home` is the result of `os.UserHomeDir()`, none
when it returns an error. -/
def getDirectories (home : Option String) (fs : FileSystem) (entries : List String) :
    Except Fatal DirMap :=
  match home with
  | none => Except.error Fatal.userHomeDir
  | some home => getDirectoriesLoop fs home entries []

/-- The inner loop of lines 68-82, for one category. -/
def appendItems (home : Option String) (category : String) :
    List DirEntry → List item → Except Fatal (List item)
  | [], items => Except.ok items
  | entry :: rest, items =>
    if entry.IsDir then
      match home with
      | none => Except.error Fatal.userHomeDir
      | some h =>
        let fullPath := Join [h, category, entry.Name]
        appendItems home category rest
          (items ++ [{ title := entry.Name, desc := category, path := fullPath }])
    else appendItems home category rest items

/-- The outer loop of lines 67-83, over the key-value pairs of the map in the order
in which `range` yields them. -/
def collectItems (home : Option String) :
    List (String × List DirEntry) → List item → Except Fatal (List item)
  | [], items => Except.ok items
  | (category, entries) :: rest, items =>
    match appendItems home category entries items with
    | Except.error e => Except.error e
    | Except.ok items => collectItems home rest items

/-- Go does not fix the order of `range` over a map: every ordering of the pairs
of the map is a possible one. -/
def RangeOrder (m : DirMap) (order : List (String × List DirEntry)) : Prop :=
  order.Perm m

/-- The Entry that line 76 builds for the directory entry `name` of `category`. -/
def entryFor (home category name : String) : item :=
  { title := name, desc := category, path := Join [home, category, name] }

/-- The Entries that the claims expect for the parent `category`: one for each
directory entry of its listing that is a directory. -/
def expectedFor (home : String) (fs : FileSystem) (category : String) : List item :=
  (((fs (Join [home, category])).getD []).filter (fun d => d.IsDir)).map
    (fun d => entryFor home category d.Name)

/-! ## Observations on a run of the launcher -/

/-- The commands that one call of `AttachOrCreateSession` runs, in order: what the
call appends to the history. -/
def issued (run : Runner) (env : Environ) (path : String) (h : History) : List Command :=
  ((AttachOrCreateSession run env path h).1.drop h.length).map Prod.fst

/-- The history at the moment of the second `Run()` of a call of
`AttachOrCreateSession`. -/
def afterCreate (run : Runner) (path : String) (h : History) : History :=
  h ++ [(newSessionCommand (sessionName path) path,
    run h (newSessionCommand (sessionName path) path))]

/-- Whether the second `Run()` (attach or switch) of a call of
`AttachOrCreateSession` returns an error. -/
def attachFails (run : Runner) (env : Environ) (path : String) (h : History) : Bool :=
  run (afterCreate run path h) (attachCommand env (sessionName path))

/-- The Entries that lines 68-82 build from the slice `dirs` stored under
`category`: one for each element that is a directory. -/
def entriesOf (home category : String) (dirs : List DirEntry) : List item :=
  (dirs.filter (fun d => d.IsDir)).map (fun d => entryFor home category d.Name)

/-- The Entries that lines 67-83 build from the pairs of a map, in the order
given. -/
def itemsOf (home : String) (m : List (String × List DirEntry)) : List item :=
  m.flatMap (fun p => (p.2.filter (fun d => d.IsDir)).map (fun d => entryFor home p.1 d.Name))

/-- The statement of the collector property for a home directory, a filesystem and
a list of parent names: the collector succeeds and, in whatever order `range` yields
the map, the item construction succeeds and its items are, up to order, one Entry
for each listed parent and each directory entry of its listing that is a
directory. -/
def CollectorClaim (home : String) (fs : FileSystem) (entries : List String) : Prop :=
  ∃ m, getDirectories (some home) fs entries = Except.ok m ∧
    ∀ order, RangeOrder m order →
      ∃ items, collectItems (some home) order [] = Except.ok items ∧
        items.Perm (entries.flatMap (expectedFor home fs))

/-! ## Predicates used in the analysis of `filepath.Clean` -/

/-- A directory name: non-empty, without separator, and neither `.` nor `..`. -/
def DirName (name : List Char) : Prop :=
  name ≠ [] ∧ '/' ∉ name ∧ name ≠ ['.'] ∧ name ≠ ['.', '.']

/-- Invariant of the loop of `filepath.Clean` for a rooted path: `dotdot` stays 1 and
the buffer keeps its leading separator. -/
def CleanInv (rooted : Bool) (st : CleanState) : Prop :=
  rooted = true → st.dotdot = 1 ∧ st.out.head? = some '/'

/-- The text is empty or ends with a separator: what follows it starts a path
element. -/
def AtBoundary (x : List Char) : Prop := x = [] ∨ x.getLast? = some '/'

/-! ## Sample worlds -/

/-- A list widget for the examples: a list of items with a cursor; a key other
than the ones `model.Update` handles moves the cursor. -/
def sampleWidget : ListWidget (List item × Nat) where
  SelectedItem := fun l => l.1.get? l.2
  SetSize := fun l _ _ => l
  Update := fun l _ => ((l.1, l.2 + 1), Cmd.other 0)

/-- A filesystem for the examples: `/home/u/dev` holds two directories and a file,
`/home/u/.config` holds one directory, nothing else can be read. -/
def sampleFS : FileSystem := fun path =>
  if path = "/home/u/dev" then some [⟨"api", true⟩, ⟨"notes.txt", false⟩, ⟨"web.app", true⟩]
  else if path = "/home/u/.config" then some [⟨"api", true⟩]
  else none

/-- A tmux for the examples: `new-session` fails when a session of that name was
created before, every other command succeeds. -/
def sampleRunner : Runner := fun h cmd =>
  match cmd.args with
  | "new-session" :: _ => h.any (fun p => p.1 == cmd && !p.2)
  | _ => false

/-- A world in which the create command fails and the attach command succeeds. -/
def createFailsRunner : Runner := fun _ cmd =>
  match cmd.args with
  | "new-session" :: _ => true
  | _ => false

/-- An environment in which `TMUX` is set to a socket path. -/
def insideTmux : Environ := fun key => if key = "TMUX" then some "/tmp/tmux-1000/default,1,0" else none

/-- An environment in which no variable is set. -/
def outsideTmux : Environ := fun _ => none

example : sessionName "my.project:v2" = "my_project_v2" := by decide
example : sessionName "/home/u/dev/my.project:v2/" = "my_project_v2" := by decide
example : sessionName "" = "_" := by decide
example : sessionName "///" = "/" := by decide
example : Clean "/home/u/../x/./y//z/.." = "/home/x/y" := by decide
example : Clean "../../a/../../b" = "../../../b" := by decide
example : Clean "a/.." = "." := by decide
example : Clean "/.." = "/" := by decide
example : Join ["/home/u", "dev", "proj"] = "/home/u/dev/proj" := by decide
example : Join ["", "", "x"] = "x" := by decide
example : Join ["a", "", "x"] = "a/x" := by decide
example : ReplaceAll "abc" "" "-" = "-a-b-c-" := by decide
example : ReplaceAll "aaa" "aa" "b" = "ba" := by decide

example : getDirectories (some "/home/u") sampleFS ["dev", ".config"] =
    Except.ok [("dev", [⟨"api", true⟩, ⟨"notes.txt", false⟩, ⟨"web.app", true⟩]),
      (".config", [⟨"api", true⟩])] := by rfl
example : getDirectories (some "/home/u") sampleFS ["dev", "nope", ".config"] =
    Except.error (Fatal.readDir "/home/u/nope") := by rfl
example : (AttachOrCreateSession sampleRunner insideTmux "/home/u/dev/web.app" []).1.map Prod.fst =
    [newSessionCommand "web_app" "/home/u/dev/web.app", switchClientCommand "web_app"] := by decide

/-! ## The session name (C1) -/

theorem replaceFrom_single (a b : Char) (s : List Char) :
    replaceFrom [a] [b] 0 s = s.map (fun c => if c = a then b else c) := by
  induction s with
  | nil => rfl
  | cons c rest ih =>
    by_cases h : c = a
    · subst h
      simp [replaceFrom, ih]
    · have h' : ¬ a = c := fun e => h e.symm
      simp [replaceFrom, ih, h, h']

theorem replaceAllChars_single (a b : Char) (s : List Char) :
    replaceAllChars s [a] [b] = s.map (fun c => if c = a then b else c) := by
  unfold replaceAllChars
  by_cases h : a = b
  · subst h
    have hid : (fun c : Char => if c = a then a else c) = id := by
      funext c
      by_cases hc : c = a <;> simp [hc]
    simp [hid]
  · simp [h, replaceFrom_single]

theorem sessionName_data (path : String) :
    (sessionName path).data = (Base path).data.map sanitizeChar := by
  have h1 : (".".data : List Char) = ['.'] := rfl
  have h2 : (":".data : List Char) = [':'] := rfl
  have h3 : ("_".data : List Char) = ['_'] := rfl
  simp only [sessionName, ReplaceAll, h1, h2, h3, replaceAllChars_single, List.map_map]
  apply List.map_congr_left
  intro c _
  simp only [Function.comp, sanitizeChar]
  by_cases hc : c = '.'
  · subst hc; decide
  · by_cases hc' : c = ':'
    · subst hc'; decide
    · simp [hc, hc']

theorem sanitizeChar_ne_dot (c : Char) : sanitizeChar c ≠ '.' := by
  unfold sanitizeChar
  split
  · decide
  · rename_i h; exact fun e => h (Or.inl e)

theorem sanitizeChar_ne_colon (c : Char) : sanitizeChar c ≠ ':' := by
  unfold sanitizeChar
  split
  · decide
  · rename_i h; exact fun e => h (Or.inr e)

/-- C1: for every path, the session name is `filepath.Base` of the path with every
`.` and every `:` replaced by `_` and every other character kept in place; it
contains neither `.` nor `:`; and for `"my.project:v2"` it is `"my_project_v2"`. -/
theorem sessionName_spec (path : String) :
    (sessionName path).data = (Base path).data.map sanitizeChar ∧
    (∀ c, sanitizeChar c = if c = '.' ∨ c = ':' then '_' else c) ∧
    '.' ∉ (sessionName path).data ∧ ':' ∉ (sessionName path).data ∧
    sessionName "my.project:v2" = "my_project_v2" := by
  refine ⟨sessionName_data path, fun _ => rfl, ?_, ?_, by decide⟩
  · rw [sessionName_data]
    intro h
    obtain ⟨c, _, hc⟩ := List.mem_map.mp h
    exact sanitizeChar_ne_dot c hc
  · rw [sessionName_data]
    intro h
    obtain ⟨c, _, hc⟩ := List.mem_map.mp h
    exact sanitizeChar_ne_colon c hc

/-! ## The launcher (C2, C3, C4) -/

theorem AttachOrCreateSession_history (run : Runner) (env : Environ) (path : String)
    (h : History) :
    (AttachOrCreateSession run env path h).1 =
      h ++ [(newSessionCommand (sessionName path) path,
              run h (newSessionCommand (sessionName path) path)),
            (attachCommand env (sessionName path), attachFails run env path h)] := by
  unfold AttachOrCreateSession attachFails afterCreate
  by_cases e : run (h ++ [(newSessionCommand (sessionName path) path,
      run h (newSessionCommand (sessionName path) path))])
      (attachCommand env (sessionName path)) = true <;> simp [e]

theorem issued_eq (run : Runner) (env : Environ) (path : String) (h : History) :
    issued run env path h =
      [newSessionCommand (sessionName path) path, attachCommand env (sessionName path)] := by
  simp [issued, AttachOrCreateSession_history]

theorem AttachOrCreateSession_outcome (run : Runner) (env : Environ) (path : String)
    (h : History) :
    (AttachOrCreateSession run env path h).2 =
      if attachFails run env path h then Outcome.fatal else Outcome.returned := by
  unfold AttachOrCreateSession attachFails afterCreate
  by_cases e : run (h ++ [(newSessionCommand (sessionName path) path,
      run h (newSessionCommand (sessionName path) path))])
      (attachCommand env (sessionName path)) = true <;> simp [e]

/-- C2: the second command of `AttachOrCreateSession` is `tmux switch-client -t <id>`
when `TMUX` is set to a non-empty value and `tmux attach-session -t <id>` when `TMUX`
is unset or empty; it is never anything else, it is `switch-client` only in the first
case, and the two requests differ. -/
theorem attach_or_switch (run : Runner) (env : Environ) (path : String) (h : History) :
    (∀ v, env "TMUX" = some v → v ≠ "" →
      issued run env path h =
        [⟨"tmux", ["new-session", "-d", "-s", sessionName path, "-c", path]⟩,
          ⟨"tmux", ["switch-client", "-t", sessionName path]⟩]) ∧
    (env "TMUX" = none ∨ env "TMUX" = some "" →
      issued run env path h =
        [⟨"tmux", ["new-session", "-d", "-s", sessionName path, "-c", path]⟩,
          ⟨"tmux", ["attach-session", "-t", sessionName path]⟩]) ∧
    ((issued run env path h).get? 1 =
        some ⟨"tmux", ["switch-client", "-t", sessionName path]⟩ ∨
      (issued run env path h).get? 1 =
        some ⟨"tmux", ["attach-session", "-t", sessionName path]⟩) ∧
    ((issued run env path h).get? 1 =
        some ⟨"tmux", ["switch-client", "-t", sessionName path]⟩ ↔
      ∃ v, env "TMUX" = some v ∧ v ≠ "") ∧
    (⟨"tmux", ["switch-client", "-t", sessionName path]⟩ : Command) ≠
      ⟨"tmux", ["attach-session", "-t", sessionName path]⟩ := by
  have hne : (⟨"tmux", ["switch-client", "-t", sessionName path]⟩ : Command) ≠
      ⟨"tmux", ["attach-session", "-t", sessionName path]⟩ := by
    intro e
    have e2 : some "switch-client" = some "attach-session" :=
      congrArg (fun c : Command => c.args.head?) e
    revert e2
    decide
  rw [issued_eq]
  refine ⟨?_, ?_, ?_, ?_, hne⟩
  · intro v hv hv2
    simp [attachCommand, Getenv, hv, hv2, newSessionCommand, switchClientCommand]
  · intro hv
    rcases hv with hv | hv <;>
      simp [attachCommand, Getenv, hv, newSessionCommand, attachSessionCommand]
  · by_cases e : Getenv env "TMUX" = "" <;>
      simp [attachCommand, e, switchClientCommand, attachSessionCommand]
  · constructor
    · intro hsw
      by_cases e : Getenv env "TMUX" = ""
      · exfalso
        have hat : attachCommand env (sessionName path) =
            ⟨"tmux", ["attach-session", "-t", sessionName path]⟩ := by
          simp [attachCommand, e, attachSessionCommand]
        rw [hat] at hsw
        simp only [List.get?_cons_succ, List.get?_cons_zero, Option.some.injEq] at hsw
        exact hne hsw.symm
      · cases hv : env "TMUX" with
        | none => simp [Getenv, hv] at e
        | some v =>
          refine ⟨v, rfl, ?_⟩
          simpa [Getenv, hv] using e
    · rintro ⟨v, hv, hv2⟩
      simp [attachCommand, Getenv, hv, hv2, switchClientCommand]

/-- Witness of C2: inside tmux the launcher runs `switch-client`, outside it runs
`attach-session`, both for the session `web_app`. -/
theorem attach_or_switch_witness :
    issued sampleRunner insideTmux "/home/u/dev/web.app" [] =
      [⟨"tmux", ["new-session", "-d", "-s", "web_app", "-c", "/home/u/dev/web.app"]⟩,
        ⟨"tmux", ["switch-client", "-t", "web_app"]⟩] ∧
    issued sampleRunner outsideTmux "/home/u/dev/web.app" [] =
      [⟨"tmux", ["new-session", "-d", "-s", "web_app", "-c", "/home/u/dev/web.app"]⟩,
        ⟨"tmux", ["attach-session", "-t", "web_app"]⟩] :=
  ⟨(attach_or_switch sampleRunner insideTmux "/home/u/dev/web.app" []).1
      "/tmp/tmux-1000/default,1,0" (by decide) (by decide),
    (attach_or_switch sampleRunner outsideTmux "/home/u/dev/web.app" []).2.1
      (Or.inl (by decide))⟩

/-- C3: whatever the runs answer, one call of `AttachOrCreateSession` runs exactly two
commands, `tmux new-session -d -s <id> -c <path>` with the path as given and then
the attach or switch command with `-t <id>` for the same `<id>`; the result of the
first is recorded and nothing else; a second call on the same path, after any first
call, again runs both. -/
theorem two_invocations (run : Runner) (env : Environ) (path : String) (h : History) :
    issued run env path h =
      [⟨"tmux", ["new-session", "-d", "-s", sessionName path, "-c", path]⟩,
        attachCommand env (sessionName path)] ∧
    (attachCommand env (sessionName path)).name = "tmux" ∧
    (attachCommand env (sessionName path)).args.tail = ["-t", sessionName path] ∧
    (AttachOrCreateSession run env path h).1.length = h.length + 2 ∧
    issued run env path (AttachOrCreateSession run env path h).1 =
      [⟨"tmux", ["new-session", "-d", "-s", sessionName path, "-c", path]⟩,
        attachCommand env (sessionName path)] := by
  refine ⟨issued_eq run env path h, ?_, ?_, ?_, issued_eq run env path _⟩
  · unfold attachCommand
    split <;> rfl
  · unfold attachCommand
    split <;> rfl
  · simp [AttachOrCreateSession_history]

/-- Witness of C3: in the sample world the second call finds the session created by
the first, its create command fails, and it still runs both commands. -/
theorem two_invocations_witness :
    sampleRunner (AttachOrCreateSession sampleRunner outsideTmux "/home/u/dev/api" []).1
        (newSessionCommand (sessionName "/home/u/dev/api") "/home/u/dev/api") = true ∧
    issued sampleRunner outsideTmux "/home/u/dev/api"
        (AttachOrCreateSession sampleRunner outsideTmux "/home/u/dev/api" []).1 =
      [⟨"tmux", ["new-session", "-d", "-s", sessionName "/home/u/dev/api", "-c",
          "/home/u/dev/api"]⟩,
        attachCommand outsideTmux (sessionName "/home/u/dev/api")] :=
  ⟨by decide, (two_invocations sampleRunner outsideTmux "/home/u/dev/api" []).2.2.2.2⟩

/-- C4: `AttachOrCreateSession` ends the process with an error exactly when the
attach or switch command fails; two worlds that agree on that command end the call
the same way whatever the create command returned; and when it succeeds the call
returns and the process exits with status 0. -/
theorem fatal_iff_attach_fails (run : Runner) (env : Environ) (path : String) (h : History) :
    ((AttachOrCreateSession run env path h).2 = Outcome.fatal ↔
      attachFails run env path h = true) ∧
    (∀ run2 : Runner, attachFails run2 env path h = attachFails run env path h →
      (AttachOrCreateSession run2 env path h).2 = (AttachOrCreateSession run env path h).2) ∧
    (attachFails run env path h = false →
      (AttachOrCreateSession run env path h).2 = Outcome.returned ∧
      ∀ (L : Type) (m : model L), m.choice = path → path ≠ "" →
        (mainAfterSelector run env m h).exitCode = 0) := by
  refine ⟨?_, ?_, ?_⟩
  · rw [AttachOrCreateSession_outcome]
    by_cases e : attachFails run env path h = true <;> simp [e]
  · intro run2 e
    rw [AttachOrCreateSession_outcome, AttachOrCreateSession_outcome, e]
  · intro e
    have ho : (AttachOrCreateSession run env path h).2 = Outcome.returned := by
      rw [AttachOrCreateSession_outcome]; simp [e]
    refine ⟨ho, ?_⟩
    intro L m hm hne
    subst hm
    simp [mainAfterSelector, hne, ho]

/-- Witness of C4: with a failing create and a succeeding attach the launcher
returns, and it ends as in the world in which both succeed. -/
theorem fatal_iff_attach_fails_witness :
    createFailsRunner [] (newSessionCommand (sessionName "/home/u/dev/api") "/home/u/dev/api")
      = true ∧
    (AttachOrCreateSession createFailsRunner outsideTmux "/home/u/dev/api" []).2
      = Outcome.returned ∧
    (AttachOrCreateSession sampleRunner outsideTmux "/home/u/dev/api" []).2 =
      (AttachOrCreateSession createFailsRunner outsideTmux "/home/u/dev/api" []).2 :=
  ⟨by decide,
    ((fatal_iff_attach_fails createFailsRunner outsideTmux "/home/u/dev/api" []).2.2
      (by decide)).1,
    (fatal_iff_attach_fails createFailsRunner outsideTmux "/home/u/dev/api" []).2.1
      sampleRunner (by decide)⟩

/-! ## The end of `main` (C5) -/

/-- C5: for every final model, an empty choice means the launcher is not called, no
command is run and the exit status is 10; a non-empty choice means the launcher is
called exactly once, with that path, and the commands run are those of that call. -/
theorem cancel_or_launch {L : Type} (run : Runner) (env : Environ) (m : model L)
    (h : History) :
    (m.choice = "" →
      (mainAfterSelector run env m h).launcherCalls = [] ∧
      (mainAfterSelector run env m h).history = h ∧
      (mainAfterSelector run env m h).exitCode = 10) ∧
    (m.choice ≠ "" →
      (mainAfterSelector run env m h).launcherCalls = [m.choice] ∧
      (mainAfterSelector run env m h).history =
        (AttachOrCreateSession run env m.choice h).1) := by
  constructor
  · intro e
    simp [mainAfterSelector, e]
  · intro e
    unfold mainAfterSelector
    rw [if_pos e]
    cases ho : (AttachOrCreateSession run env m.choice h).2 <;> simp [ho]

/-- Witness of C5: a cancelled selection exits with 10 and runs nothing; a selection
calls the launcher once with the chosen path. -/
theorem cancel_or_launch_witness :
    ((mainAfterSelector sampleRunner outsideTmux
        (initialModel ([], 0) : model (List item × Nat)) []).launcherCalls = [] ∧
      (mainAfterSelector sampleRunner outsideTmux
        (initialModel ([], 0) : model (List item × Nat)) []).history = [] ∧
      (mainAfterSelector sampleRunner outsideTmux
        (initialModel ([], 0) : model (List item × Nat)) []).exitCode = 10) ∧
    (mainAfterSelector sampleRunner outsideTmux
        ({ list := ([], 0), choice := "/home/u/dev/api" } : model (List item × Nat))
        []).launcherCalls = ["/home/u/dev/api"] :=
  ⟨(cancel_or_launch sampleRunner outsideTmux
      (initialModel ([], 0) : model (List item × Nat)) []).1 rfl,
    ((cancel_or_launch sampleRunner outsideTmux
      ({ list := ([], 0), choice := "/home/u/dev/api" } : model (List item × Nat)) []).2
      (by decide)).1⟩

/-! ## The collector (C6, C7) -/

theorem getDirectoriesLoop_error_iff (fs : FileSystem) (home : String) :
    ∀ (entries : List String) (m : DirMap),
      (∃ err, getDirectoriesLoop fs home entries m = Except.error err) ↔
        ∃ e ∈ entries, fs (Join [home, e]) = none := by
  intro entries
  induction entries with
  | nil => intro m; simp [getDirectoriesLoop]
  | cons e rest ih =>
    intro m
    unfold getDirectoriesLoop
    cases hfs : fs (Join [home, e]) with
    | none => simp [hfs]
    | some dirs =>
      simp only [hfs]
      rw [ih]
      simp [hfs]

theorem getDirectoriesLoop_ok_iff (fs : FileSystem) (home : String) :
    ∀ (entries : List String) (m : DirMap),
      (∃ r, getDirectoriesLoop fs home entries m = Except.ok r) ↔
        ∀ e ∈ entries, (fs (Join [home, e])).isSome = true := by
  intro entries
  induction entries with
  | nil => intro m; simp [getDirectoriesLoop]
  | cons e rest ih =>
    intro m
    unfold getDirectoriesLoop
    cases hfs : fs (Join [home, e]) with
    | none => simp [hfs]
    | some dirs =>
      simp only [hfs]
      rw [ih]
      simp [hfs]

/-- C7: `getDirectories` is fatal when the home directory is not resolved, and, with
the home directory resolved, it is fatal exactly when some configured parent,
wherever it stands in the list, cannot be read; a fatal run yields no mapping, and a
mapping is returned only when the home directory is resolved and every configured
parent is readable. -/
theorem getDirectories_fatal (home : Option String) (fs : FileSystem)
    (entries : List String) :
    (home = none → getDirectories home fs entries = Except.error Fatal.userHomeDir) ∧
    (∀ h, home = some h →
      ((∃ e ∈ entries, fs (Join [h, e]) = none) ↔
        ∃ err, getDirectories home fs entries = Except.error err)) ∧
    ((∃ err, getDirectories home fs entries = Except.error err) →
      ∀ m, getDirectories home fs entries ≠ Except.ok m) ∧
    (∀ m, getDirectories home fs entries = Except.ok m →
      ∃ h, home = some h ∧ ∀ e ∈ entries, (fs (Join [h, e])).isSome = true) := by
  refine ⟨?_, ?_, ?_, ?_⟩
  · intro e
    subst e
    rfl
  · intro h e
    subst e
    exact (getDirectoriesLoop_error_iff fs h entries []).symm
  · rintro ⟨err, e⟩ m hm
    rw [e] at hm
    cases hm
  · intro m hm
    cases home with
    | none => cases hm
    | some h =>
      exact ⟨h, rfl, (getDirectoriesLoop_ok_iff fs h entries []).mp ⟨m, hm⟩⟩

/-- Witness of C7: an unreadable parent in the middle of the list is fatal, and the
listing of the readable parents yields a mapping. -/
theorem getDirectories_fatal_witness :
    (∃ err, getDirectories (some "/home/u") sampleFS ["dev", "nope", ".config"]
      = Except.error err) ∧
    (∀ e ∈ ["dev", ".config"], (sampleFS (Join ["/home/u", e])).isSome = true) :=
  ⟨((getDirectories_fatal (some "/home/u") sampleFS ["dev", "nope", ".config"]).2.1
      "/home/u" rfl).mp ⟨"nope", by decide, by decide⟩,
    by
      obtain ⟨h, hh, hall⟩ :=
        (getDirectories_fatal (some "/home/u") sampleFS ["dev", ".config"]).2.2.2 _ rfl
      cases hh
      exact hall⟩

theorem lookup_isSome_iff (key : String) :
    ∀ m : DirMap, (m.lookup key).isSome = true ↔ key ∈ m.map Prod.fst := by
  intro m
  induction m with
  | nil => simp [List.lookup]
  | cons p rest ih =>
    obtain ⟨k, v⟩ := p
    by_cases h : key = k
    · subst h
      simp [List.lookup]
    · have hb : (key == k) = false := by simp [h]
      simp [List.lookup, hb, ih, h]

theorem keys_set (m : DirMap) (key : String) (value : List DirEntry) :
    (m.set key value).map Prod.fst =
      if key ∈ m.map Prod.fst then m.map Prod.fst else m.map Prod.fst ++ [key] := by
  unfold DirMap.set
  by_cases h : key ∈ m.map Prod.fst
  · rw [if_pos ((lookup_isSome_iff key m).mpr h), if_pos h, List.map_map]
    apply List.map_congr_left
    intro p _
    by_cases hp : p.1 = key <;> simp [Function.comp, hp]
  · have hl : ¬ (m.lookup key).isSome = true := fun e => h ((lookup_isSome_iff key m).mp e)
    rw [if_neg hl, if_neg h]
    simp

theorem nodup_keys_set (m : DirMap) (key : String) (value : List DirEntry)
    (hnd : (m.map Prod.fst).Nodup) : ((m.set key value).map Prod.fst).Nodup := by
  rw [keys_set]
  by_cases h : key ∈ m.map Prod.fst
  · rw [if_pos h]
    exact hnd
  · rw [if_neg h]
    exact List.Nodup.append hnd (List.nodup_singleton key)
      (by
        intro x hx hx2
        rw [List.mem_singleton] at hx2
        exact h (hx2 ▸ hx))

theorem entriesOf_append (home category : String) (a b : List DirEntry) :
    entriesOf home category (a ++ b) =
      entriesOf home category a ++ entriesOf home category b := by
  simp [entriesOf]

theorem itemsOf_cons (home key : String) (value : List DirEntry)
    (rest : List (String × List DirEntry)) :
    itemsOf home ((key, value) :: rest) = entriesOf home key value ++ itemsOf home rest := by
  simp [itemsOf, entriesOf]

theorem itemsOf_set (home key : String) (dirs : List DirEntry) :
    ∀ m : DirMap, (m.map Prod.fst).Nodup →
      (itemsOf home (m.set key (m.get key ++ dirs))).Perm
        (itemsOf home m ++ entriesOf home key dirs) := by
  intro m
  induction m with
  | nil =>
    intro _
    simp [DirMap.set, DirMap.get, List.lookup, itemsOf, entriesOf]
  | cons p rest ih =>
    intro hnd
    obtain ⟨k, v⟩ := p
    simp only [List.map_cons, List.nodup_cons] at hnd
    by_cases h : key = k
    · subst h
      have hmap : rest.map (fun p => if p.1 = key then (key, v ++ dirs) else p) = rest := by
        conv_rhs => rw [← List.map_id rest]
        apply List.map_congr_left
        intro p hp
        have hne : p.1 ≠ key := fun e => hnd.1 (e ▸ List.mem_map_of_mem Prod.fst hp)
        simp [hne]
      have hset : DirMap.set ((key, v) :: rest) key
          (DirMap.get ((key, v) :: rest) key ++ dirs) = (key, v ++ dirs) :: rest := by
        simp [DirMap.set, DirMap.get, List.lookup, hmap]
      rw [hset, itemsOf_cons, itemsOf_cons, entriesOf_append, List.append_assoc,
        List.append_assoc]
      exact List.Perm.append_left _ List.perm_append_comm
    · have hb : (key == k) = false := by simp [h]
      have hk : ¬ k = key := fun e => h e.symm
      have hget : DirMap.get ((k, v) :: rest) key = DirMap.get rest key := by
        simp [DirMap.get, List.lookup, hb]
      have hset : ∀ value, DirMap.set ((k, v) :: rest) key value =
          (k, v) :: DirMap.set rest key value := by
        intro value
        by_cases hs : (rest.lookup key).isSome = true <;>
          simp [DirMap.set, List.lookup, hb, hs, hk]
      rw [hget, hset, itemsOf_cons, itemsOf_cons, List.append_assoc]
      exact List.Perm.append_left _ (ih hnd.2)

theorem getDirectoriesLoop_items (fs : FileSystem) (home : String) :
    ∀ (entries : List String) (m : DirMap), (m.map Prod.fst).Nodup →
      (∀ e ∈ entries, (fs (Join [home, e])).isSome = true) →
      ∃ r, getDirectoriesLoop fs home entries m = Except.ok r ∧
        (r.map Prod.fst).Nodup ∧
        (itemsOf home r).Perm (itemsOf home m ++ entries.flatMap (expectedFor home fs)) := by
  intro entries
  induction entries with
  | nil =>
    intro m hnd _
    exact ⟨m, rfl, hnd, by simp⟩
  | cons e rest ih =>
    intro m hnd hread
    obtain ⟨dirs, hdirs⟩ :=
      Option.isSome_iff_exists.mp (hread e (List.mem_cons_self _ _))
    obtain ⟨r, hr, hrnd, hperm⟩ := ih (m.set e (m.get e ++ dirs))
      (nodup_keys_set m e _ hnd) (fun e' he' => hread e' (List.mem_cons_of_mem _ he'))
    refine ⟨r, ?_, hrnd, ?_⟩
    · unfold getDirectoriesLoop
      simp only [hdirs]
      exact hr
    · have hexp : expectedFor home fs e = entriesOf home e dirs := by
        simp [expectedFor, entriesOf, hdirs]
      rw [List.flatMap_cons, hexp, ← List.append_assoc]
      exact hperm.trans (List.Perm.append_right _ (itemsOf_set home e dirs m hnd))

theorem appendItems_eq (home category : String) :
    ∀ (entries : List DirEntry) (items : List item),
      appendItems (some home) category entries items =
        Except.ok (items ++ (entries.filter (fun d => d.IsDir)).map
          (fun d => entryFor home category d.Name)) := by
  intro entries
  induction entries with
  | nil => intro items; simp [appendItems]
  | cons d rest ih =>
    intro items
    unfold appendItems
    by_cases hd : d.IsDir = true
    · simp [hd, ih, entryFor]
    · simp [hd, ih]

theorem collectItems_eq (home : String) :
    ∀ (order : List (String × List DirEntry)) (items : List item),
      collectItems (some home) order items =
        Except.ok (items ++ order.flatMap (fun p =>
          (p.2.filter (fun d => d.IsDir)).map (fun d => entryFor home p.1 d.Name))) := by
  intro order
  induction order with
  | nil => intro items; simp [collectItems]
  | cons p rest ih =>
    intro items
    obtain ⟨category, entries⟩ := p
    unfold collectItems
    simp [appendItems_eq, ih]

/-- C6: for every list of configured parent names and every filesystem in which all
those parents are readable, the collector succeeds and, in any iteration order of the
map, the item construction succeeds and its items are up to order exactly one Entry
per directory entry that is a directory, for each listed parent, and none for the
other entries; the Entry has the entry's name as title, the parent as category and
`Join [home, category, name]` as path. -/
theorem collector_entries (home : String) (fs : FileSystem) (entries : List String)
    (hread : ∀ e ∈ entries, (fs (Join [home, e])).isSome = true) :
    CollectorClaim home fs entries := by
  obtain ⟨r, hr, _, hperm⟩ :=
    getDirectoriesLoop_items fs home entries [] List.nodup_nil hread
  refine ⟨r, hr, ?_⟩
  intro order horder
  refine ⟨_, collectItems_eq home order [], ?_⟩
  rw [List.nil_append]
  have hp : (itemsOf home order).Perm (itemsOf home r) :=
    List.Perm.flatMap_right _ horder
  have hperm2 : (itemsOf home r).Perm (entries.flatMap (expectedFor home fs)) := by
    simpa [itemsOf] using hperm
  exact hp.trans hperm2

/-- Witness of C6: the two parents of `main` on the sample filesystem, where the map
read in the order `dev`, `.config` gives the two directories of `dev` and the one of
`.config` and leaves out the file `notes.txt`. -/
theorem collector_entries_witness :
    CollectorClaim "/home/u" sampleFS ["dev", ".config"] ∧
    collectItems (some "/home/u")
        [("dev", [⟨"api", true⟩, ⟨"notes.txt", false⟩, ⟨"web.app", true⟩]),
          (".config", [⟨"api", true⟩])] [] =
      Except.ok [⟨"api", "dev", "/home/u/dev/api"⟩, ⟨"web.app", "dev", "/home/u/dev/web.app"⟩,
        ⟨"api", ".config", "/home/u/.config/api"⟩] ∧
    ["dev", ".config"].flatMap (expectedFor "/home/u" sampleFS) =
      [⟨"api", "dev", "/home/u/dev/api"⟩, ⟨"web.app", "dev", "/home/u/dev/web.app"⟩,
        ⟨"api", ".config", "/home/u/.config/api"⟩] :=
  ⟨collector_entries "/home/u" sampleFS ["dev", ".config"] (by decide), by rfl, by decide⟩

/-! ## The selector (C8, C9) -/

/-- C8: on the key `enter`, `Update` with an item highlighted returns the model with
`choice` set to the path of that item, the list as it was, and `tea.Quit`; with no
item highlighted it returns the model as it was and no command, whatever the list
widget would have done with the key. -/
theorem Update_enter {L : Type} (W : ListWidget L) (m : model L) :
    (∀ i, W.SelectedItem m.list = some i →
      Update W m (Msg.KeyMsg "enter") = ({ list := m.list, choice := i.path }, Cmd.Quit)) ∧
    (W.SelectedItem m.list = none →
      Update W m (Msg.KeyMsg "enter") = (m, Cmd.nil)) := by
  constructor
  · intro i hi
    simp [Update, hi]
  · intro hi
    simp [Update, hi]

/-- Witness of C8: with the cursor on an item `enter` chooses its path; with the
cursor past the end `enter` changes nothing although the widget, given the key, would
have moved. -/
theorem Update_enter_witness :
    Update sampleWidget
        ({ list := ([⟨"api", "dev", "/home/u/dev/api"⟩], 0), choice := "" } :
          model (List item × Nat))
        (Msg.KeyMsg "enter") =
      ({ list := ([⟨"api", "dev", "/home/u/dev/api"⟩], 0), choice := "/home/u/dev/api" },
        Cmd.Quit) ∧
    Update sampleWidget
        ({ list := ([⟨"api", "dev", "/home/u/dev/api"⟩], 1), choice := "" } :
          model (List item × Nat))
        (Msg.KeyMsg "enter") =
      ({ list := ([⟨"api", "dev", "/home/u/dev/api"⟩], 1), choice := "" }, Cmd.nil) ∧
    sampleWidget.Update ([⟨"api", "dev", "/home/u/dev/api"⟩], 1) (Msg.KeyMsg "enter") =
      (([⟨"api", "dev", "/home/u/dev/api"⟩], 2), Cmd.other 0) :=
  ⟨(Update_enter sampleWidget
      ({ list := ([⟨"api", "dev", "/home/u/dev/api"⟩], 0), choice := "" } :
        model (List item × Nat))).1 ⟨"api", "dev", "/home/u/dev/api"⟩ rfl,
    (Update_enter sampleWidget
      ({ list := ([⟨"api", "dev", "/home/u/dev/api"⟩], 1), choice := "" } :
        model (List item × Nat))).2 rfl,
    rfl⟩

theorem Update_choice {L : Type} (W : ListWidget L) (m : model L) (msg : Msg)
    (h : isConfirmation W m msg = false) : (Update W m msg).1.choice = m.choice := by
  cases msg with
  | KeyMsg str =>
    unfold Update
    by_cases h1 : str = "ctrl+c"
    · simp [h1]
    · by_cases h2 : str = "enter"
      · subst h2
        cases hs : W.SelectedItem m.list with
        | none => simp [hs]
        | some i => simp [isConfirmation, hs] at h
      · simp [h1, h2]
  | WindowSizeMsg w v => simp [Update]
  | other tag => simp [Update]

theorem runMessages_choice {L : Type} (W : ListWidget L) :
    ∀ (msgs : List Msg) (m : model L), noConfirmation W m msgs = true →
      (runMessages W m msgs).choice = m.choice := by
  intro msgs
  induction msgs with
  | nil => intro m _; rfl
  | cons msg rest ih =>
    intro m h
    simp only [noConfirmation, Bool.and_eq_true, Bool.not_eq_true'] at h
    simp only [runMessages]
    rw [ih _ h.2, Update_choice W m msg h.1]

/-- C9: `Update` on `ctrl+c` returns `tea.Quit` and the model as it was; and after any
sequence of messages, started from the initial model, in which no `enter` arrives
while an item is highlighted, `choice` is still empty, so that a quit at that point
leaves the selector without a result. -/
theorem quit_emits_no_path {L : Type} (W : ListWidget L) (l : L) (msgs : List Msg)
    (hno : noConfirmation W (initialModel l) msgs = true) :
    (∀ m : model L, Update W m (Msg.KeyMsg "ctrl+c") = (m, Cmd.Quit)) ∧
    (runMessages W (initialModel l) msgs).choice = "" ∧
    selectionResult
      (Update W (runMessages W (initialModel l) msgs) (Msg.KeyMsg "ctrl+c")).1 = none := by
  have hq : ∀ m : model L, Update W m (Msg.KeyMsg "ctrl+c") = (m, Cmd.Quit) := by
    intro m
    simp [Update]
  have hc : (runMessages W (initialModel l) msgs).choice = "" := by
    rw [runMessages_choice W msgs _ hno]
    rfl
  refine ⟨hq, hc, ?_⟩
  rw [hq]
  simp [selectionResult, hc]

/-- Witness of C9: keys, a resize and an `enter` that arrives with the cursor past
the end of the list, then `ctrl+c`. -/
theorem quit_emits_no_path_witness :
    noConfirmation sampleWidget (initialModel ([⟨"api", "dev", "/home/u/dev/api"⟩], 0))
      [Msg.KeyMsg "j", Msg.WindowSizeMsg 80 24, Msg.KeyMsg "enter", Msg.other 3] = true ∧
    selectionResult
      (Update sampleWidget
        (runMessages sampleWidget (initialModel ([⟨"api", "dev", "/home/u/dev/api"⟩], 0))
          [Msg.KeyMsg "j", Msg.WindowSizeMsg 80 24, Msg.KeyMsg "enter", Msg.other 3])
        (Msg.KeyMsg "ctrl+c")).1 = none :=
  ⟨by decide,
    (quit_emits_no_path sampleWidget ([⟨"api", "dev", "/home/u/dev/api"⟩], 0)
      [Msg.KeyMsg "j", Msg.WindowSizeMsg 80 24, Msg.KeyMsg "enter", Msg.other 3]
      (by decide)).2.2⟩

/-! ## The last element of a joined path (C10) -/

theorem cleanLoop_nil (rooted : Bool) (fuel : Nat) (st : CleanState) :
    cleanLoop rooted fuel [] st = st := by
  cases fuel <;> rfl

theorem cleanLoop_cons (rooted : Bool) (fuel : Nat) (c : Char) (rest : List Char)
    (st : CleanState) :
    cleanLoop rooted (fuel + 1) (c :: rest) st =
      if IsPathSeparator c then cleanLoop rooted fuel rest st
      else if c = '.' ∧ (rest = [] ∨ rest.head? = some '/') then cleanLoop rooted fuel rest st
      else if c = '.' ∧ rest.head? = some '.' ∧ (rest.tail = [] ∨ rest.tail.head? = some '/') then
        cleanLoop rooted fuel rest.tail (cleanDotDot rooted st)
      else
        cleanLoop rooted fuel ((c :: rest).dropWhile (fun x => !IsPathSeparator x))
          { st with out :=
              (if (rooted && st.out.length != 1) || (!rooted && st.out.length != 0) then
                st.out ++ ['/'] else st.out) ++
                (c :: rest).takeWhile (fun x => !IsPathSeparator x) } := by
  rfl

theorem isPathSeparator_iff (c : Char) : IsPathSeparator c = true ↔ c = '/' := by
  simp [IsPathSeparator]

theorem not_sep_of_not_mem {name : List Char} (h : '/' ∉ name) :
    ∀ x ∈ name, (!IsPathSeparator x) = true := by
  intro x hx
  have hne : x ≠ '/' := fun e => h (e ▸ hx)
  simp [IsPathSeparator, hne]

theorem backtrackIndex_ge (out : List Char) (dotdot : Nat) :
    ∀ w, dotdot ≤ w → dotdot ≤ backtrackIndex out dotdot w := by
  intro w
  induction w with
  | zero => intro h; simpa [backtrackIndex] using h
  | succ w ih =>
    intro h
    unfold backtrackIndex
    split
    · rename_i hc
      exact ih (Nat.lt_succ_iff.mp hc.1)
    · exact h

theorem head?_take_pos (l : List Char) (k : Nat) (hk : 1 ≤ k) :
    (l.take k).head? = l.head? := by
  cases l with
  | nil => simp
  | cons a t =>
    cases k with
    | zero => omega
    | succ k => simp

theorem cleanDotDot_inv (rooted : Bool) (st : CleanState) (h : CleanInv rooted st) :
    CleanInv rooted (cleanDotDot rooted st) := by
  intro hr
  obtain ⟨hd, hh⟩ := h hr
  unfold cleanDotDot
  by_cases hl : st.out.length > st.dotdot
  · rw [if_pos hl]
    refine ⟨hd, ?_⟩
    show (st.out.take (backtrackIndex st.out st.dotdot (st.out.length - 1))).head? = some '/'
    rw [head?_take_pos _ _ ?_, hh]
    have := backtrackIndex_ge st.out st.dotdot (st.out.length - 1) (by omega)
    omega
  · rw [if_neg hl]
    simp [hr]
    exact ⟨hd, hh⟩

theorem cleanElement_inv (rooted : Bool) (st : CleanState) (elem : List Char)
    (h : CleanInv rooted st) :
    CleanInv rooted
      { st with out :=
          (if (rooted && st.out.length != 1) || (!rooted && st.out.length != 0) then
            st.out ++ ['/'] else st.out) ++ elem } := by
  intro hr
  obtain ⟨hd, hh⟩ := h hr
  refine ⟨hd, ?_⟩
  cases ho : st.out with
  | nil => rw [ho] at hh; simp at hh
  | cons a t =>
    rw [ho] at hh
    simp only [List.head?_cons, Option.some.injEq] at hh
    subst hh
    show ((if _ then _ else _) ++ elem).head? = some '/'
    split <;> simp

theorem dropWhile_before_sep (name : List Char) :
    ∀ u : List Char, ∃ u2,
      (u ++ '/' :: name).dropWhile (fun x => !IsPathSeparator x) = u2 ++ '/' :: name ∧
        u2.length ≤ u.length := by
  intro u
  induction u with
  | nil => exact ⟨[], by simp [List.dropWhile, IsPathSeparator], le_refl _⟩
  | cons c u ih =>
    by_cases hc : IsPathSeparator c = true
    · exact ⟨c :: u, by simp [List.dropWhile, hc], le_refl _⟩
    · obtain ⟨u2, h2, hlen⟩ := ih
      refine ⟨u2, ?_, by simp; omega⟩
      simp only [Bool.not_eq_true] at hc
      simp [List.dropWhile, hc]
      simpa using h2

theorem cleanLoop_dirName (rooted : Bool) (name : List Char) (hn : DirName name)
    (fuel : Nat) (st : CleanState) (hfuel : name.length ≤ fuel) (hinv : CleanInv rooted st) :
    ∃ x, (cleanLoop rooted fuel name st).out = x ++ name ∧ AtBoundary x := by
  obtain ⟨hne, hsep, hdot, hdd⟩ := hn
  cases name with
  | nil => exact absurd rfl hne
  | cons c rest =>
    cases fuel with
    | zero => simp at hfuel
    | succ f =>
      have hc : IsPathSeparator c = false := by
        have hne : c ≠ '/' := fun e => hsep (by simp [e])
        simp [IsPathSeparator, hne]
      have h1 : ¬ (c = '.' ∧ (rest = [] ∨ rest.head? = some '/')) := by
        rintro ⟨e, h | h⟩
        · subst e; subst h; exact hdot rfl
        · cases rest with
          | nil => simp at h
          | cons d t =>
            simp only [List.head?_cons, Option.some.injEq] at h
            exact hsep (by simp [h])
      have h2 : ¬ (c = '.' ∧ rest.head? = some '.' ∧
          (rest.tail = [] ∨ rest.tail.head? = some '/')) := by
        rintro ⟨e, hh, h⟩
        cases rest with
        | nil => simp at hh
        | cons d t =>
          simp only [List.head?_cons, Option.some.injEq] at hh
          simp only [List.tail_cons] at h
          rcases h with h | h
          · subst e; subst hh; subst h; exact hdd rfl
          · cases t with
            | nil => simp at h
            | cons d2 t2 =>
              simp only [List.head?_cons, Option.some.injEq] at h
              exact hsep (by simp [h])
      have htake : (c :: rest).takeWhile (fun x => !IsPathSeparator x) = c :: rest :=
        List.takeWhile_eq_self_iff.mpr (not_sep_of_not_mem hsep)
      have hdrop : (c :: rest).dropWhile (fun x => !IsPathSeparator x) = [] :=
        List.dropWhile_eq_nil_iff.mpr (not_sep_of_not_mem hsep)
      rw [cleanLoop_cons, hc, if_neg (by simp), if_neg h1, if_neg h2, htake, hdrop,
        cleanLoop_nil]
      by_cases hcond :
          ((rooted && st.out.length != 1) || (!rooted && st.out.length != 0)) = true
      · refine ⟨st.out ++ ['/'], ?_, Or.inr (by simp)⟩
        simp [hcond]
      · refine ⟨st.out, ?_, ?_⟩
        · simp [hcond]
        · cases rooted with
          | false =>
            left
            simp at hcond
            exact hcond
          | true =>
            right
            obtain ⟨_, hh⟩ := hinv rfl
            simp at hcond
            cases ho : st.out with
            | nil => rw [ho] at hcond; simp at hcond
            | cons a t =>
              rw [ho] at hh hcond
              simp at hh hcond
              subst hh; subst hcond
              rfl

theorem cleanLoop_before_dirName (rooted : Bool) (name : List Char) (hn : DirName name) :
    ∀ (fuel : Nat) (u : List Char) (st : CleanState),
      u.length + 1 + name.length ≤ fuel → CleanInv rooted st →
      ∃ x, (cleanLoop rooted fuel (u ++ '/' :: name) st).out = x ++ name ∧ AtBoundary x := by
  intro fuel
  induction fuel with
  | zero => intro u st h _; omega
  | succ f ih =>
    intro u st hfuel hinv
    cases u with
    | nil =>
      rw [List.nil_append, cleanLoop_cons, if_pos (by decide)]
      exact cleanLoop_dirName rooted name hn f st (by simp at hfuel; omega) hinv
    | cons c u =>
      rw [List.cons_append, cleanLoop_cons]
      have hlen : u.length + 1 + name.length ≤ f := by simp at hfuel; omega
      split
      · exact ih u st hlen hinv
      · split
        · exact ih u st hlen hinv
        · split
          · rename_i hdd
            cases u with
            | nil => simp at hdd
            | cons d u =>
              simp only [List.cons_append, List.tail_cons]
              exact ih u _ (by simp at hlen; omega) (cleanDotDot_inv rooted st hinv)
          · rename_i hsep _ _
            have hdrop : (c :: (u ++ '/' :: name)).dropWhile (fun x => !IsPathSeparator x) =
                (u ++ '/' :: name).dropWhile (fun x => !IsPathSeparator x) := by
              simp only [Bool.not_eq_true] at hsep
              simp [List.dropWhile, hsep]
            obtain ⟨u2, h2, hl2⟩ := dropWhile_before_sep name u
            rw [hdrop, h2]
            exact ih u2 _ (by omega) (cleanElement_inv rooted st _ hinv)

theorem cleanLoop_fuel (rooted : Bool) :
    ∀ (f1 f2 : Nat) (path : List Char) (st : CleanState),
      path.length ≤ f1 → path.length ≤ f2 →
      cleanLoop rooted f1 path st = cleanLoop rooted f2 path st := by
  intro f1
  induction f1 with
  | zero =>
    intro f2 path st h1 _
    have hp : path = [] := List.length_eq_zero.mp (Nat.le_zero.mp h1)
    subst hp
    rw [cleanLoop_nil, cleanLoop_nil]
  | succ f1 ih =>
    intro f2 path st h1 h2
    cases path with
    | nil => rw [cleanLoop_nil, cleanLoop_nil]
    | cons c rest =>
      cases f2 with
      | zero => simp at h2
      | succ f2 =>
        simp only [List.length_cons, Nat.add_le_add_iff_right] at h1 h2
        rw [cleanLoop_cons, cleanLoop_cons]
        by_cases hc : IsPathSeparator c = true
        · rw [if_pos hc, if_pos hc]
          exact ih f2 rest st h1 h2
        · rw [if_neg hc, if_neg hc]
          by_cases hd : c = '.' ∧ (rest = [] ∨ rest.head? = some '/')
          · rw [if_pos hd, if_pos hd]
            exact ih f2 rest st h1 h2
          · rw [if_neg hd, if_neg hd]
            by_cases hdd : c = '.' ∧ rest.head? = some '.' ∧
                (rest.tail = [] ∨ rest.tail.head? = some '/')
            · rw [if_pos hdd, if_pos hdd]
              have ht : rest.tail.length ≤ rest.length := by simp
              exact ih f2 _ _ (le_trans ht h1) (le_trans ht h2)
            · rw [if_neg hdd, if_neg hdd]
              have hdrop : ((c :: rest).dropWhile (fun x => !IsPathSeparator x)).length ≤
                  rest.length := by
                simp only [Bool.not_eq_true] at hc
                simp only [List.dropWhile, hc, Bool.not_false]
                exact (List.dropWhile_sublist _).length_le
              exact ih f2 _ _ (le_trans hdrop h1) (le_trans hdrop h2)

theorem cleanChars_dirName (name : List Char) (hn : DirName name) (p : List Char)
    (hp : AtBoundary p) :
    ∃ x, cleanChars (p ++ name) = x ++ name ∧ AtBoundary x := by
  have hnonempty : ∀ (st : CleanState) (x : List Char), st.out = x ++ name →
      (if st.out.length = 0 then ['.'] else st.out) = x ++ name := by
    intro st x hx
    have hlen : st.out.length ≠ 0 := by
      rw [hx, List.length_append]
      have := List.length_pos.mpr hn.1
      omega
    rw [if_neg hlen, hx]
  have key : ∃ st : CleanState, cleanChars (p ++ name) =
      (if st.out.length = 0 then ['.'] else st.out) ∧
      ∃ x, st.out = x ++ name ∧ AtBoundary x := by
    rcases hp with hp | hp
    · subst hp
      cases name with
      | nil => exact absurd rfl hn.1
      | cons c rest =>
        have hc : IsPathSeparator c = false := by
          have hne : c ≠ '/' := fun e => hn.2.1 (by simp [e])
          simp [IsPathSeparator, hne]
        refine ⟨cleanLoop false (c :: rest).length (c :: rest) { out := [], dotdot := 0 },
          by simp [cleanChars, hc], ?_⟩
        exact cleanLoop_dirName false (c :: rest) hn _ _ (le_refl _)
          (fun h => by cases h)
    · obtain ⟨u, hu⟩ : ∃ u, p = u ++ ['/'] := by
        rcases List.eq_nil_or_concat p with h | ⟨u, a, h⟩
        · subst h; simp at hp
        · subst h
          simp at hp
          exact ⟨u, by rw [hp]; simp⟩
      subst hu
      rw [List.append_assoc, List.singleton_append]
      cases u with
      | nil =>
        refine ⟨cleanLoop true name.length name { out := ['/'], dotdot := 1 },
          by simp [cleanChars, IsPathSeparator], ?_⟩
        exact cleanLoop_dirName true name hn _ _ (le_refl _) (fun _ => ⟨rfl, rfl⟩)
      | cons c u =>
        by_cases hc : IsPathSeparator c = true
        · refine ⟨cleanLoop true (u ++ '/' :: name).length (u ++ '/' :: name)
            { out := ['/'], dotdot := 1 }, by simp [cleanChars, hc], ?_⟩
          exact cleanLoop_before_dirName true name hn _ u _ (by simp; omega)
            (fun _ => ⟨rfl, rfl⟩)
        · simp only [Bool.not_eq_true] at hc
          refine ⟨cleanLoop false (c :: (u ++ '/' :: name)).length (c :: (u ++ '/' :: name))
            { out := [], dotdot := 0 }, by simp [cleanChars, hc], ?_⟩
          exact cleanLoop_before_dirName false name hn _ (c :: u) _ (by simp; omega)
            (fun h => by cases h)
  obtain ⟨st, hst, x, hx, hb⟩ := key
  exact ⟨x, by rw [hst, hnonempty st x hx], hb⟩

theorem baseChars_dirName (name : List Char) (hn : DirName name) (x : List Char)
    (hx : AtBoundary x) : baseChars (x ++ name) = name := by
  obtain ⟨hne, hsep, _, _⟩ := hn
  have hstrip : stripTrailingSeparators (x ++ name) = x ++ name := by
    unfold stripTrailingSeparators
    cases hrev : name.reverse with
    | nil => exact absurd (List.reverse_eq_nil_iff.mp hrev) hne
    | cons a t =>
      have ha : a ∈ name := by
        have : a ∈ name.reverse := by rw [hrev]; exact List.mem_cons_self _ _
        exact List.mem_reverse.mp this
      have hna : IsPathSeparator a = false := by
        have := not_sep_of_not_mem hsep a ha
        simpa using this
      rw [List.reverse_append, hrev, List.cons_append, List.dropWhile_cons_of_neg (by simp [hna]),
        ← List.cons_append, ← hrev, ← List.reverse_append, List.reverse_reverse]
  have hx' : x.reverse.takeWhile (fun c => !IsPathSeparator c) = [] := by
    rcases hx with hx | hx
    · subst hx; rfl
    · have hh : x.reverse.head? = some '/' := by rw [List.head?_reverse]; exact hx
      cases hr : x.reverse with
      | nil => rfl
      | cons a t =>
        rw [hr] at hh
        simp only [List.head?_cons, Option.some.injEq] at hh
        subst hh
        simp [List.takeWhile, IsPathSeparator]
  have hlast : lastElement (x ++ name) = name := by
    unfold lastElement
    rw [List.reverse_append, List.takeWhile_append_of_pos, hx', List.append_nil,
      List.reverse_reverse]
    intro a ha
    exact not_sep_of_not_mem hsep a (List.mem_reverse.mp ha)
  unfold baseChars
  have hnn : x ++ name ≠ [] := by simp [hne]
  rw [if_neg hnn]
  simp only [hstrip, hlast, if_neg hne]

theorem joinPathChars_dirName (home category name : List Char) (hn : DirName name) :
    ∃ p, AtBoundary p ∧ joinPathChars [home, category, name] = cleanChars (p ++ name) := by
  by_cases hh : home = []
  · by_cases hc : category = []
    · exact ⟨[], Or.inl rfl, by simp [joinPathChars, joinChars, hh, hc, hn.1]⟩
    · exact ⟨category ++ ['/'], Or.inr (by simp),
        by simp [joinPathChars, joinChars, hh, hc]⟩
  · exact ⟨(home ++ '/' :: category) ++ ['/'],
      Or.inr (by rw [List.getLast?_append]; rfl),
      by simp [joinPathChars, joinChars, hh]⟩

theorem base_join_dirName (home category name : List Char) (hn : DirName name) :
    baseChars (joinPathChars [home, category, name]) = name := by
  obtain ⟨p, hp, hj⟩ := joinPathChars_dirName home category name hn
  obtain ⟨x, hx, hb⟩ := cleanChars_dirName name hn p hp
  rw [hj, hx]
  exact baseChars_dirName name hn x hb

theorem dirName_of_string (name : String) (hne : name ≠ "") (hsep : '/' ∉ name.data)
    (hdot : name ≠ ".") (hdd : name ≠ "..") : DirName name.data :=
  ⟨fun e => hne (String.ext e), hsep, fun e => hdot (String.ext e),
    fun e => hdd (String.ext e)⟩

theorem base_entry_path (home category name : String) (hn : DirName name.data) :
    Base (entryFor home category name).path = name := by
  apply String.ext
  show baseChars (joinPathChars [home.data, category.data, name.data]) = name.data
  exact base_join_dirName home.data category.data name.data hn

/-- C10: for every home directory, category and directory name (non-empty, without
`/`, neither `.` nor `..`), the last element of the Entry path
`Join [home, category, name]` is the name, so the session name derived from the path is
the name with `.` and `:` replaced by `_`, whatever the category and the home
directory; hence the same name under `dev` and under `.config`, and the names `a.b`
and `a_b`, give distinct Entries with different paths and the same session name. -/
theorem sessionName_of_entry (home category name : String)
    (hne : name ≠ "") (hsep : '/' ∉ name.data) (hdot : name ≠ ".") (hdd : name ≠ "..") :
    Base (entryFor home category name).path = name ∧
    (sessionName (entryFor home category name).path).data = name.data.map sanitizeChar ∧
    (∀ home2 category2 : String,
      sessionName (entryFor home2 category2 name).path =
        sessionName (entryFor home category name).path) ∧
    (entryFor "/home/u" "dev" "api" ≠ entryFor "/home/u" ".config" "api" ∧
      (entryFor "/home/u" "dev" "api").path ≠ (entryFor "/home/u" ".config" "api").path ∧
      sessionName (entryFor "/home/u" "dev" "api").path =
        sessionName (entryFor "/home/u" ".config" "api").path) ∧
    (entryFor "/home/u" "dev" "a.b" ≠ entryFor "/home/u" "dev" "a_b" ∧
      (entryFor "/home/u" "dev" "a.b").path ≠ (entryFor "/home/u" "dev" "a_b").path ∧
      sessionName (entryFor "/home/u" "dev" "a.b").path =
        sessionName (entryFor "/home/u" "dev" "a_b").path) := by
  have hn := dirName_of_string name hne hsep hdot hdd
  have hbase := base_entry_path home category name hn
  refine ⟨hbase, ?_, ?_, ⟨by decide, by decide, by decide⟩,
    ⟨by decide, by decide, by decide⟩⟩
  · rw [sessionName_data, hbase]
  · intro home2 category2
    have hbase2 := base_entry_path home2 category2 name hn
    simp only [sessionName, hbase, hbase2]

/-- Witness of C10: the directory `web.app` of `dev` under `/home/u`. -/
theorem sessionName_of_entry_witness :
    Base (entryFor "/home/u" "dev" "web.app").path = "web.app" ∧
    (sessionName (entryFor "/home/u" "dev" "web.app").path).data =
      "web.app".data.map sanitizeChar :=
  ⟨(sessionName_of_entry "/home/u" "dev" "web.app" (by decide) (by decide) (by decide)
      (by decide)).1,
    (sessionName_of_entry "/home/u" "dev" "web.app" (by decide) (by decide) (by decide)
      (by decide)).2.1⟩

end Sessionizer
